import Mathlib

/-!
Shallow embedding of `generate_openapi.py` (WordPress-to-OpenAPI generator).

Strings are modelled as `List Char`; Python dicts as insertion-ordered
association lists (`dinsert` overwrites the value of an existing key in
place, as Python dict assignment does).  Dynamic-typing failures of the
Python code (calling `.get` on a non-dict, iterating a non-iterable,
calling `.lower()` on a non-string) are modelled by `Except PyErr`.
The recursive string scanners use an explicit fuel argument equal to the
input length; every scanner step consumes at least one input character,
so that fuel is always sufficient and the zero-fuel branch is unreachable
from the wrappers.
-/

namespace WPGen

/-- JSON values, the shape of the WordPress discovery document. -/
inductive JSON where
  | null : JSON
  | bool : Bool → JSON
  | num : Int → JSON
  | str : List Char → JSON
  | arr : List JSON → JSON
  | obj : List (List Char × JSON) → JSON

/-- Runtime errors the Python code can raise on malformed input shapes. -/
inductive PyErr where
  | attributeError : PyErr
  | typeError : PyErr
deriving DecidableEq

/-- Python dict lookup (`d[k]` / `d.get(k)`), on an association list. -/
def dlookup {α : Type} (k : List Char) : List (List Char × α) → Option α
  | [] => none
  | (k', v) :: rest => if k = k' then some v else dlookup k rest

/-- Python dict assignment `d[k] = v`: overwrites in place, keeps position;
appends at the end when the key is new. -/
def dinsert {α : Type} (k : List Char) (v : α) : List (List Char × α) → List (List Char × α)
  | [] => [(k, v)]
  | (k', v') :: rest => if k = k' then (k, v) :: rest else (k', v') :: dinsert k v rest

/-- `route.replace('/wp/v2', '')`: delete every occurrence of the literal
substring, scanning left to right. -/
def stripNamespace : List Char → List Char
  | '/' :: 'w' :: 'p' :: '/' :: 'v' :: '2' :: rest => stripNamespace rest
  | c :: rest => c :: stripNamespace rest
  | [] => []

/-- Match the regex `\(\?P<([^>]+)>\[\\d\]\+\)` at the head of the input:
literal `(?P<`, a nonempty run of non-`>` characters (the group name),
then the literal characters `>[\d]+)`.  Returns the captured name and the
remainder after the match. -/
def matchNumGroup : List Char → Option (List Char × List Char)
  | '(' :: '?' :: 'P' :: '<' :: rest =>
    let name := rest.takeWhile (fun c => c ≠ '>')
    if name.isEmpty then none
    else
      match rest.dropWhile (fun c => c ≠ '>') with
      | '>' :: '[' :: '\\' :: 'd' :: ']' :: '+' :: ')' :: tail => some (name, tail)
      | _ => none
  | _ => none

/-- Match the regex `\(\?P<([^>]+)>[^)]+\)` at the head of the input:
literal `(?P<`, a nonempty run of non-`>` characters (the group name),
`>`, a nonempty run of non-`)` characters, then `)`. -/
def matchGenGroup : List Char → Option (List Char × List Char)
  | '(' :: '?' :: 'P' :: '<' :: rest =>
    let name := rest.takeWhile (fun c => c ≠ '>')
    if name.isEmpty then none
    else
      match rest.dropWhile (fun c => c ≠ '>') with
      | '>' :: rest2 =>
        let body := rest2.takeWhile (fun c => c ≠ ')')
        if body.isEmpty then none
        else
          match rest2.dropWhile (fun c => c ≠ ')') with
          | ')' :: tail => some (name, tail)
          | _ => none
      | _ => none
  | _ => none

/-- One pass of `re.sub(pattern1, r'/{{\1}}', path)`: scan left to right,
replace each match by a slash, two opening braces, the captured name and
two closing braces (the replacement template's doubled braces are literal
characters in `re.sub`), and continue after the match. -/
def sub1Go : Nat → List Char → List Char
  | 0, l => l
  | _ + 1, [] => []
  | fuel + 1, c :: cs =>
    match matchNumGroup (c :: cs) with
    | some (name, tail) =>
      '/' :: '\x7b' :: '\x7b' :: (name ++ '\x7d' :: '\x7d' :: sub1Go fuel tail)
    | none => c :: sub1Go fuel cs

/-- `re.sub(r'\(\?P<([^>]+)>\[\\d\]\+\)', r'/{{\1}}', path)`. -/
def sub1 (l : List Char) : List Char := sub1Go l.length l

/-- One pass of `re.sub(pattern2, r'/{{\1}}', path)` for the generic
capture-group pattern. -/
def sub2Go : Nat → List Char → List Char
  | 0, l => l
  | _ + 1, [] => []
  | fuel + 1, c :: cs =>
    match matchGenGroup (c :: cs) with
    | some (name, tail) =>
      '/' :: '\x7b' :: '\x7b' :: (name ++ '\x7d' :: '\x7d' :: sub2Go fuel tail)
    | none => c :: sub2Go fuel cs

/-- `re.sub(r'\(\?P<([^>]+)>[^)]+\)', r'/{{\1}}', path)`. -/
def sub2 (l : List Char) : List Char := sub2Go l.length l

/-- The path translation performed at the top of the route loop in
`generate_openapi_spec` (lines 85-92): namespace strip, the two regex
substitutions, then the leading-slash fix. -/
def translate (route : List Char) : List Char :=
  let path := stripNamespace route
  let path := sub2 (sub1 path)
  if path.head? = some '/' then path else '/' :: path

/-- `re.findall(r'{([^}]+)}', path)`: scan left to right; at an opening
brace, capture the nonempty run of non-closing-brace characters that is
followed by a closing brace, and continue after that closing brace. -/
def findBraceParamsGo : Nat → List Char → List (List Char)
  | 0, _ => []
  | _ + 1, [] => []
  | fuel + 1, c :: cs =>
    if c = '\x7b' then
      let name := cs.takeWhile (fun x => x ≠ '\x7d')
      if name.isEmpty then findBraceParamsGo fuel cs
      else
        match cs.dropWhile (fun x => x ≠ '\x7d') with
        | '\x7d' :: tail => name :: findBraceParamsGo fuel tail
        | _ => findBraceParamsGo fuel cs
    else findBraceParamsGo fuel cs

/-- `path_params = re.findall(r'{([^}]+)}', path)` (line 103). -/
def findBraceParams (l : List Char) : List (List Char) := findBraceParamsGo l.length l

/-- The `schema` sub-dict of a parameter object: a `type` entry and an
optional `enum` entry (present only when the argument spec declares one). -/
structure Schema where
  type : JSON
  enum : Option JSON

/-- One OpenAPI parameter object as built by the Python code.  `inLoc` is
the object's `in` field.  `required` and `description` hold whatever JSON
value the argument spec supplied (the code stores them verbatim). -/
structure Param where
  name : List Char
  inLoc : List Char
  required : JSON
  schema : Schema
  description : JSON

/-- One OpenAPI operation object. `responses` maps status code to its
description string. -/
structure Operation where
  summary : List Char
  description : JSON
  parameters : List Param
  responses : List (List Char × List Char)

/-- A PathItem: lowercased HTTP method name to Operation, in insertion order. -/
abbrev PathItem := List (List Char × Operation)

/-- The `paths` mapping: normalized path template to PathItem. -/
abbrev Paths := List (List Char × PathItem)

/-- The generated OpenAPI document (envelope fields flattened). -/
structure OpenAPISpec where
  openapi : List Char
  infoTitle : List Char
  infoVersion : List Char
  infoDescription : List Char
  serverUrls : List (List Char)
  paths : Paths

/-- The fixed four-entry `responses` stub attached to every operation
(lines 128-141). -/
def responsesStub : List (List Char × List Char) :=
  [("200".data, "Successful response".data),
   ("400".data, "Bad request".data),
   ("401".data, "Unauthorized".data),
   ("404".data, "Resource not found".data)]

/-- `process_arg_details(arg_name, arg_details)` (lines 30-67): build a
query parameter from an argument spec; non-dict specs keep the defaults. -/
def process_arg_details (arg_name : List Char) (arg_details : JSON) : Param :=
  match arg_details with
  | .obj kvs =>
    let param_type0 := (dlookup "type".data kvs).getD (.str "string".data)
    let param_type :=
      match param_type0 with
      | .arr ts => ts.headD (.str "string".data)
      | t => t
    { name := arg_name
      inLoc := "query".data
      required := (dlookup "required".data kvs).getD (.bool false)
      schema := { type := param_type, enum := dlookup "enum".data kvs }
      description := (dlookup "description".data kvs).getD (.str []) }
  | _ =>
    { name := arg_name
      inLoc := "query".data
      required := .bool false
      schema := { type := .str "string".data, enum := none }
      description := .str [] }

/-- The path-parameter object appended for each name found in the
translated path (lines 104-113). -/
def pathParamObj (n : List Char) : Param :=
  { name := n
    inLoc := "path".data
    required := .bool true
    schema := { type := .str "string".data, enum := none }
    description := .str ("Path parameter: ".data ++ n) }

/-- The parameter list of one operation (lines 100-122): all path
parameters found in the translated path, in order and with duplicates
kept, followed by the endpoint's declared arguments in mapping order,
skipping any argument whose name equals one of the path parameters.
Non-dict `args` values are skipped entirely. -/
def buildParameters (path : List Char) (epkvs : List (List Char × JSON)) : List Param :=
  let path_params := findBraceParams path
  let pathPs := path_params.map pathParamObj
  let args := (dlookup "args".data epkvs).getD (.obj [])
  let argPs :=
    match args with
    | .obj akvs =>
      (akvs.filter (fun kv => decide (kv.1 ∉ path_params))).map
        (fun kv => process_arg_details kv.1 kv.2)
    | _ => []
  pathPs ++ argPs

/-- The operation object written at `path_item[method]` (lines 124-142).
`descr` is the route metadata's top-level `description` value. -/
def mkOperation (path : List Char) (descr : JSON) (epkvs : List (List Char × JSON))
    (mlow : List Char) : Operation :=
  { summary := mlow.map Char.toUpper ++ ' ' :: path
    description := descr
    parameters := buildParameters path epkvs
    responses := responsesStub }

/-- Python `x.lower()`: succeeds only on strings, `AttributeError` otherwise. -/
def pyLower : JSON → Except PyErr (List Char)
  | .str s => .ok (s.map Char.toLower)
  | _ => .error .attributeError

/-- Python `for x in v`: lists yield their elements, dicts their keys,
strings their characters (as one-character strings); other values raise
`TypeError`. -/
def pyIter : JSON → Except PyErr (List JSON)
  | .arr xs => .ok xs
  | .obj kvs => .ok (kvs.map (fun kv => JSON.str kv.1))
  | .str s => .ok (s.map (fun c => JSON.str [c]))
  | _ => .error .typeError

/-- The body of the `for method in endpoint.get('methods', [])` loop
(lines 98-142): lower the method name (raising on non-strings), then
overwrite `path_item[method]` with a freshly built operation. -/
def processMethod (path : List Char) (descr : JSON) (epkvs : List (List Char × JSON))
    (item : PathItem) (m : JSON) : Except PyErr PathItem := do
  let mlow ← pyLower m
  pure (dinsert mlow (mkOperation path descr epkvs mlow) item)

/-- The body of the `for endpoint in details.get('endpoints', [])` loop
(lines 97-142).  A non-dict endpoint raises `AttributeError` at
`endpoint.get('methods', [])`. -/
def processEndpoint (path : List Char) (descr : JSON) (item : PathItem) (ep : JSON) :
    Except PyErr PathItem :=
  match ep with
  | .obj epkvs => do
    let ms ← pyIter ((dlookup "methods".data epkvs).getD (.arr []))
    ms.foldlM (processMethod path descr epkvs) item
  | _ => .error .attributeError

/-- The `path_item` built for one route (lines 94-142): empty unless the
metadata is a dict containing an `endpoints` key; iterating a
non-iterable `endpoints` value raises `TypeError`. -/
def buildPathItem (path : List Char) (details : JSON) : Except PyErr PathItem :=
  match details with
  | .obj kvs =>
    if (dlookup "endpoints".data kvs).isSome then do
      let eps ← pyIter ((dlookup "endpoints".data kvs).getD (.arr []))
      eps.foldlM
        (processEndpoint path ((dlookup "description".data kvs).getD (.str []))) []
    else pure []
  | _ => pure []

/-- One iteration of the `for route, details in routes.items()` loop
(lines 82-145): translate the route, build its path item, and store it
under the translated path only when non-empty. -/
def processRoute (paths : Paths) (route : List Char) (details : JSON) :
    Except PyErr Paths := do
  let path := translate route
  let item ← buildPathItem path details
  pure (if item.isEmpty then paths else dinsert path item paths)

/-- `generate_openapi_spec(base_url, routes)` (lines 69-147). -/
def generate_openapi_spec (base_url : List Char) (routes : List (List Char × JSON)) :
    Except PyErr OpenAPISpec := do
  let ps ← routes.foldlM (fun acc kv => processRoute acc kv.1 kv.2) []
  pure { openapi := "3.0.0".data
         infoTitle := "WordPress REST API".data
         infoVersion := "1.0.0".data
         infoDescription := "Auto-generated OpenAPI spec for WordPress REST API".data
         serverUrls := [base_url]
         paths := ps }

/-- `.isSome`-style success test for the embedded computations. -/
def isOkE {α : Type} : Except PyErr α → Bool
  | .ok _ => true
  | .error _ => false

/-- Extract the success value of an embedded computation, if any. -/
def okValue {α : Type} : Except PyErr α → Option α
  | .ok a => some a
  | .error _ => none

/-- Route metadata is a dict with an `endpoints` key (the guard at line 96). -/
def hasEndpointsKey : JSON → Bool
  | .obj kvs => (dlookup "endpoints".data kvs).isSome
  | _ => false

/-- A `methods` value (when present) is a list of strings. -/
def wellShapedMethodsVal : Option JSON → Bool
  | none => true
  | some (.arr ms) => ms.all (fun m => match m with | .str _ => true | _ => false)
  | some _ => false

/-- An endpoint entry is a dict whose `methods`, when present, is a list
of strings. -/
def wellShapedEndpoint : JSON → Bool
  | .obj epkvs => wellShapedMethodsVal (dlookup "methods".data epkvs)
  | _ => false

/-- Route metadata whose `endpoints`, when it is a dict that has one, is a
list of well-shaped endpoint entries.  Everything else about the metadata
(including non-dict metadata and arbitrary `args` values) is unconstrained. -/
def wellShapedDetails : JSON → Bool
  | .obj kvs =>
    match dlookup "endpoints".data kvs with
    | none => true
    | some (.arr eps) => eps.all wellShapedEndpoint
    | some _ => false
  | _ => true

/-- The declared-argument part of `buildParameters`, split out for reasoning:
the parameters produced from the `args` value, skipping names that already
occur among the path parameters `pp`. -/
def argParams (pp : List (List Char)) : JSON → List Param
  | .obj akvs =>
    (akvs.filter (fun kv => decide (kv.1 ∉ pp))).map
      (fun kv => process_arg_details kv.1 kv.2)
  | _ => []

/-- The declared argument names of an endpoint dict, in mapping order
(empty when `args` is missing or not a dict). -/
def argNames (epkvs : List (List Char × JSON)) : List (List Char) :=
  match (dlookup "args".data epkvs).getD (.obj []) with
  | .obj akvs => akvs.map Prod.fst
  | _ => []

/-- Concrete route set for the C2 counterexample: a route whose translated
path repeats the placeholder named `id` and whose endpoint also declares an
argument named `id`. -/
def c2Routes : List (List Char × JSON) :=
  [("/x/\x7bid\x7d/\x7bid\x7d".data,
    JSON.obj [("endpoints".data, JSON.arr [JSON.obj
      [("methods".data, JSON.arr [JSON.str "GET".data]),
       ("args".data, JSON.obj [("id".data, JSON.obj [])])]])])]

/-- Concrete route set for the C3 counterexample: a route whose translated
path repeats the placeholder named `pid`. -/
def c3Routes : List (List Char × JSON) :=
  [("/y/\x7bpid\x7d/\x7bpid\x7d".data,
    JSON.obj [("endpoints".data, JSON.arr [JSON.obj
      [("methods".data, JSON.arr [JSON.str "POST".data])]])])]

/-- Concrete route set for the C4 witness: tolerated malformations
(non-dict metadata, missing endpoints key, non-dict `args`, extra keys)
alongside a normal route. -/
def c4Routes : List (List Char × JSON) :=
  [("/a".data, JSON.obj
      [("endpoints".data, JSON.arr [JSON.obj
        [("methods".data, JSON.arr [JSON.str "GET".data]),
         ("args".data, JSON.num 3)]]),
       ("other".data, JSON.null)]),
   ("/b".data, JSON.str "junk".data),
   ("/c".data, JSON.obj [("descr".data, JSON.bool true)])]

/-- Endpoint dict for the C6 witness. -/
def c6Epkvs : List (List Char × JSON) :=
  [("methods".data, JSON.arr [JSON.str "GET".data])]

/-- Route for the C6 witness. -/
def c6Route : List Char × JSON :=
  ("/a".data, JSON.obj [("endpoints".data, JSON.arr [JSON.obj c6Epkvs])])

/-- The path item generated for `c6Route`. -/
def c6Item : PathItem :=
  [("get".data, mkOperation "/a".data (JSON.str []) c6Epkvs "get".data)]

/-- The document generated from `c6Route` alone with base URL `u`. -/
def c6Doc : OpenAPISpec :=
  { openapi := "3.0.0".data
    infoTitle := "WordPress REST API".data
    infoVersion := "1.0.0".data
    infoDescription := "Auto-generated OpenAPI spec for WordPress REST API".data
    serverUrls := ["u".data]
    paths := [("/a".data, c6Item)] }

/-- Endpoint dict for the C7 witness. -/
def c7Epkvs : List (List Char × JSON) :=
  [("methods".data, JSON.arr [JSON.str "POST".data])]

/-- Route for the C7 witness. -/
def c7Route : List Char × JSON :=
  ("/r".data, JSON.obj
    [("endpoints".data, JSON.arr [JSON.obj c7Epkvs]),
     ("description".data, JSON.str "Thing".data)])

/-- The operation generated for `c7Route`'s POST method. -/
def c7Op : Operation :=
  mkOperation "/r".data (JSON.str "Thing".data) c7Epkvs "post".data

/-- The path item generated for `c7Route`. -/
def c7Item : PathItem := [("post".data, c7Op)]

/-- The document generated from `c7Route` alone with base URL `u`. -/
def c7Doc : OpenAPISpec :=
  { openapi := "3.0.0".data
    infoTitle := "WordPress REST API".data
    infoVersion := "1.0.0".data
    infoDescription := "Auto-generated OpenAPI spec for WordPress REST API".data
    serverUrls := ["u".data]
    paths := [("/r".data, c7Item)] }

/-- The cumulative effect on a path item of processing one endpoint whose
`methods` is the string list `ms`: each method is lowercased and the entry
at that key is overwritten with the freshly built operation. -/
def runMethods (path : List Char) (descr : JSON) (epkvs : List (List Char × JSON))
    (item : PathItem) (ms : List (List Char)) : PathItem :=
  ms.foldl (fun it s =>
    dinsert (s.map Char.toLower)
      (mkOperation path descr epkvs (s.map Char.toLower)) it) item

/-- Endpoint dict for the C8 witness: the later endpoint, declaring GET
with an argument. -/
def c8Epkvs : List (List Char × JSON) :=
  [("methods".data, JSON.arr [JSON.str "GET".data]),
   ("args".data, JSON.obj [("page".data, JSON.obj [])])]

/-- Path item for the C8 witness already holding a GET operation built
from an earlier endpoint of the same route. -/
def c8PrevItem : PathItem :=
  [("get".data, mkOperation "/e".data (JSON.str "d".data) [] "get".data)]

/-- Endpoint dict of the earlier route for the C9 witness. -/
def c9Epkvs1 : List (List Char × JSON) :=
  [("methods".data, JSON.arr [JSON.str "GET".data])]

/-- Endpoint dict of the later route for the C9 witness. -/
def c9Epkvs2 : List (List Char × JSON) :=
  [("methods".data, JSON.arr [JSON.str "PUT".data])]

/-- Metadata of the earlier route `/wp/v2/s` for the C9 witness. -/
def c9D1 : JSON := JSON.obj [("endpoints".data, JSON.arr [JSON.obj c9Epkvs1])]

/-- Metadata of the later route `/s` for the C9 witness; both routes
translate to the normalized path `/s`. -/
def c9D2 : JSON := JSON.obj [("endpoints".data, JSON.arr [JSON.obj c9Epkvs2])]

/-- Path item generated for the earlier C9 route. -/
def c9Item1 : PathItem :=
  [("get".data, mkOperation "/s".data (JSON.str []) c9Epkvs1 "get".data)]

/-- Path item generated for the later C9 route. -/
def c9Item2 : PathItem :=
  [("put".data, mkOperation "/s".data (JSON.str []) c9Epkvs2 "put".data)]

/-- The paths accumulator after processing the earlier C9 route. -/
def c9Paths : Paths := [("/s".data, c9Item1)]

/-! ### Helper lemmas about the embedded dict and monadic folds -/

theorem except_bind_ok {α β : Type} (a : α) (g : α → Except PyErr β) :
    (Except.ok a >>= g) = g a := rfl

theorem except_bind_error {α β : Type} (e : PyErr) (g : α → Except PyErr β) :
    ((Except.error e : Except PyErr α) >>= g) = .error e := rfl

theorem foldlM_except_nil {σ α : Type} (f : σ → α → Except PyErr σ) (s : σ) :
    List.foldlM f s [] = .ok s := rfl

theorem foldlM_except_cons {σ α : Type} (f : σ → α → Except PyErr σ) (s : σ) (a : α)
    (l : List α) : List.foldlM f s (a :: l) = f s a >>= fun s₂ => List.foldlM f s₂ l := rfl

theorem foldlM_except_inv {σ α : Type} (f : σ → α → Except PyErr σ) (P : σ → Prop)
    (hf : ∀ s a s₂, P s → f s a = .ok s₂ → P s₂) :
    ∀ (l : List α) (s sf : σ), P s → List.foldlM f s l = .ok sf → P sf := by
  intro l
  induction l with
  | nil =>
    intro s sf hs h
    rw [foldlM_except_nil] at h
    cases h
    exact hs
  | cons a as ih =>
    intro s sf hs h
    rw [foldlM_except_cons] at h
    cases hfa : f s a with
    | error e => rw [hfa, except_bind_error] at h; cases h
    | ok s₂ => rw [hfa, except_bind_ok] at h; exact ih s₂ sf (hf s a s₂ hs hfa) h

theorem foldlM_except_ok {σ α : Type} (f : σ → α → Except PyErr σ) (q : α → Prop)
    (hf : ∀ s a, q a → ∃ s₂, f s a = .ok s₂) :
    ∀ (l : List α) (s : σ), (∀ a ∈ l, q a) → ∃ sf, List.foldlM f s l = .ok sf := by
  intro l
  induction l with
  | nil => intro s _; exact ⟨s, rfl⟩
  | cons a as ih =>
    intro s hq
    obtain ⟨s₂, hs₂⟩ := hf s a (hq a (by simp))
    obtain ⟨sf, hsf⟩ := ih s₂ (fun x hx => hq x (by simp [hx]))
    exact ⟨sf, by rw [foldlM_except_cons, hs₂, except_bind_ok, hsf]⟩

theorem dlookup_dinsert {α : Type} (p k : List Char) (v : α) (l : List (List Char × α)) :
    dlookup p (dinsert k v l) = if p = k then some v else dlookup p l := by
  induction l with
  | nil => by_cases h : p = k <;> simp [dinsert, dlookup, h]
  | cons hd tl ih =>
    obtain ⟨k', v'⟩ := hd
    by_cases hk : k = k'
    · subst hk
      by_cases hp : p = k <;> simp [dinsert, dlookup, hp]
    · by_cases hp : p = k'
      · have hpk : p ≠ k := fun h => hk (h.symm.trans hp)
        subst hp
        simp [dinsert, hk, dlookup, hpk]
      · simp [dinsert, hk, dlookup, hp, ih]

theorem dlookup_dinsert_self {α : Type} (k : List Char) (v : α) (l : List (List Char × α)) :
    dlookup k (dinsert k v l) = some v := by
  rw [dlookup_dinsert]
  simp

theorem mem_dinsert {α : Type} (k : List Char) (v : α) (l : List (List Char × α))
    (e : List Char × α) (he : e ∈ dinsert k v l) : e = (k, v) ∨ e ∈ l := by
  induction l with
  | nil =>
    simp [dinsert] at he
    simp [he]
  | cons hd tl ih =>
    obtain ⟨k', v'⟩ := hd
    by_cases h : k = k'
    · subst h
      simp [dinsert] at he
      rcases he with he | he
      · left; simp [he]
      · right; simp [he]
    · simp [dinsert, h] at he
      rcases he with he | he
      · right; simp [he]
      · rcases ih he with h1 | h1
        · left; exact h1
        · right; simp [h1]

theorem dlookup_mem {α : Type} (k : List Char) (v : α) (l : List (List Char × α))
    (h : dlookup k l = some v) : (k, v) ∈ l := by
  induction l with
  | nil => simp [dlookup] at h
  | cons hd tl ih =>
    obtain ⟨k', v'⟩ := hd
    by_cases hk : k = k'
    · subst hk
      simp [dlookup] at h
      simp [h]
    · simp [dlookup, hk] at h
      simp [ih h]

theorem process_arg_details_name (a : List Char) (d : JSON) :
    (process_arg_details a d).name = a := by
  cases d <;> rfl

theorem process_arg_details_inLoc (a : List Char) (d : JSON) :
    (process_arg_details a d).inLoc = "query".data := by
  cases d <;> rfl

theorem buildParameters_eq (path : List Char) (epkvs : List (List Char × JSON)) :
    buildParameters path epkvs
      = (findBraceParams path).map pathParamObj
        ++ argParams (findBraceParams path) ((dlookup "args".data epkvs).getD (.obj [])) := by
  cases h : (dlookup "args".data epkvs).getD (.obj []) <;>
    simp [buildParameters, argParams, h]

theorem mem_argParams {pp : List (List Char)} {args : JSON} {p : Param}
    (hp : p ∈ argParams pp args) : p.inLoc = "query".data ∧ p.name ∉ pp := by
  cases args with
  | obj akvs =>
    simp only [argParams, List.mem_map, List.mem_filter] at hp
    obtain ⟨kv, ⟨hkv, hdec⟩, hpe⟩ := hp
    subst hpe
    refine ⟨process_arg_details_inLoc kv.1 kv.2, ?_⟩
    rw [process_arg_details_name]
    exact of_decide_eq_true hdec
  | null => simp [argParams] at hp
  | bool b => simp [argParams] at hp
  | num n => simp [argParams] at hp
  | str s => simp [argParams] at hp
  | arr xs => simp [argParams] at hp

theorem argParams_pairs (pp : List (List Char)) (akvs : List (List Char × JSON)) :
    (argParams pp (.obj akvs)).map (fun p => (p.name, p.inLoc))
      = ((akvs.map Prod.fst).filter (fun n => decide (n ∉ pp))).map
          (fun n => (n, "query".data)) := by
  induction akvs with
  | nil => rfl
  | cons kv akvs ih =>
    simp only [argParams] at ih ⊢
    rw [List.map_cons, List.filter_cons, List.filter_cons]
    by_cases hk : kv.1 ∉ pp
    · rw [if_pos (by simpa using hk), if_pos (by simpa using hk), List.map_cons,
        List.map_cons, process_arg_details_name, process_arg_details_inLoc, ih]
      rfl
    · rw [if_neg (by simpa using hk), if_neg (by simpa using hk)]
      exact ih

theorem filter_path_map_pathParamObj (pp : List (List Char)) :
    ((pp.map pathParamObj).filter (fun p => decide (p.inLoc = "path".data))).map
      (fun p => p.name) = pp := by
  induction pp with
  | nil => rfl
  | cons n pp ih => simp [pathParamObj, ih]

theorem length_filter_name_map_pathParamObj (pp : List (List Char)) (t : List Char) :
    ((pp.map pathParamObj).filter (fun p => decide (p.name = t))).length
      = pp.countP (fun n => decide (n = t)) := by
  induction pp with
  | nil => rfl
  | cons n pp ih =>
    by_cases hn : n = t <;> simp [pathParamObj, hn, ih, List.countP_cons]

theorem processMethod_str_ok (path : List Char) (descr : JSON)
    (epkvs : List (List Char × JSON)) (item : PathItem) (s : List Char) :
    processMethod path descr epkvs item (.str s)
      = .ok (dinsert (s.map Char.toLower)
          (mkOperation path descr epkvs (s.map Char.toLower)) item) := rfl

theorem wellShapedMethods_getD (epkvs : List (List Char × JSON))
    (h : wellShapedMethodsVal (dlookup "methods".data epkvs) = true) :
    ∃ ms, (dlookup "methods".data epkvs).getD (.arr []) = .arr ms
      ∧ ∀ m ∈ ms, ∃ s, m = .str s := by
  cases hm : dlookup "methods".data epkvs with
  | none => exact ⟨[], rfl, by simp⟩
  | some v =>
    rw [hm] at h
    cases v with
    | arr ms =>
      refine ⟨ms, rfl, ?_⟩
      simp only [wellShapedMethodsVal, List.all_eq_true] at h
      intro m hmem
      have h2 := h m hmem
      cases m with
      | str s => exact ⟨s, rfl⟩
      | null => simp at h2
      | bool b => simp at h2
      | num n => simp at h2
      | arr xs => simp at h2
      | obj kvs2 => simp at h2
    | null => simp [wellShapedMethodsVal] at h
    | bool b => simp [wellShapedMethodsVal] at h
    | num n => simp [wellShapedMethodsVal] at h
    | str s => simp [wellShapedMethodsVal] at h
    | obj kvs => simp [wellShapedMethodsVal] at h

theorem processEndpoint_ok (path : List Char) (descr : JSON) (ep : JSON)
    (hep : wellShapedEndpoint ep = true) (item : PathItem) :
    ∃ item₂, processEndpoint path descr item ep = .ok item₂ := by
  cases ep with
  | obj epkvs =>
    obtain ⟨ms, hms, hall⟩ :=
      wellShapedMethods_getD epkvs (by simpa [wellShapedEndpoint] using hep)
    obtain ⟨sf, hsf⟩ := foldlM_except_ok (processMethod path descr epkvs)
      (fun m => ∃ s, m = .str s)
      (fun it m hm2 => by obtain ⟨s, hs⟩ := hm2; subst hs; exact ⟨_, rfl⟩)
      ms item hall
    refine ⟨sf, ?_⟩
    simp only [processEndpoint, hms, pyIter, except_bind_ok]
    exact hsf
  | null => simp [wellShapedEndpoint] at hep
  | bool b => simp [wellShapedEndpoint] at hep
  | num n => simp [wellShapedEndpoint] at hep
  | str s => simp [wellShapedEndpoint] at hep
  | arr xs => simp [wellShapedEndpoint] at hep

theorem buildPathItem_ok (path : List Char) (d : JSON)
    (hd : wellShapedDetails d = true) : ∃ item, buildPathItem path d = .ok item := by
  cases d with
  | obj kvs =>
    cases he : dlookup "endpoints".data kvs with
    | none => exact ⟨[], by simp only [buildPathItem, he]; rfl⟩
    | some ev =>
      rw [wellShapedDetails, he] at hd
      cases ev with
      | arr eps =>
        have hall : ∀ e ∈ eps, wellShapedEndpoint e = true := by
          simpa only [List.all_eq_true] using hd
        obtain ⟨item, hitem⟩ := foldlM_except_ok
          (processEndpoint path ((dlookup "description".data kvs).getD (.str [])))
          (fun e => wellShapedEndpoint e = true)
          (fun it e h2 => processEndpoint_ok path _ e h2 it) eps [] hall
        refine ⟨item, ?_⟩
        simp only [buildPathItem, he, Option.isSome, if_true, Option.getD, pyIter,
          except_bind_ok]
        exact hitem
      | null => simp at hd
      | bool b => simp at hd
      | num n => simp at hd
      | str s => simp at hd
      | obj kvs2 => simp at hd
  | null => exact ⟨[], rfl⟩
  | bool b => exact ⟨[], rfl⟩
  | num n => exact ⟨[], rfl⟩
  | str s => exact ⟨[], rfl⟩
  | arr xs => exact ⟨[], rfl⟩

theorem processRoute_ok (paths : Paths) (route : List Char) (d : JSON)
    (hd : wellShapedDetails d = true) : ∃ ps, processRoute paths route d = .ok ps := by
  obtain ⟨item, hitem⟩ := buildPathItem_ok (translate route) d hd
  refine ⟨if item.isEmpty then paths else dinsert (translate route) item paths, ?_⟩
  simp only [processRoute, hitem, except_bind_ok]
  rfl

theorem processRoute_cases (paths paths₂ : Paths) (route : List Char) (d : JSON)
    (h : processRoute paths route d = .ok paths₂) :
    paths₂ = paths ∨ ∃ item, buildPathItem (translate route) d = .ok item
      ∧ item.isEmpty = false ∧ paths₂ = dinsert (translate route) item paths := by
  cases hbi : buildPathItem (translate route) d with
  | error e =>
    rw [processRoute, hbi, except_bind_error] at h
    exact absurd h (by simp)
  | ok item =>
    rw [processRoute, hbi, except_bind_ok] at h
    cases hemp : item.isEmpty with
    | true =>
      rw [hemp] at h
      simp only [if_true] at h
      left
      injection h with h2
      exact h2.symm
    | false =>
      rw [hemp] at h
      simp only [Bool.false_eq_true, if_false] at h
      right
      refine ⟨item, rfl, hemp, ?_⟩
      injection h with h2
      exact h2.symm

theorem generate_paths_eq (base : List Char) (routes : List (List Char × JSON))
    (doc : OpenAPISpec) (h : generate_openapi_spec base routes = .ok doc) :
    List.foldlM (fun acc kv => processRoute acc kv.1 kv.2) ([] : Paths) routes
      = .ok doc.paths := by
  cases hps : List.foldlM (fun acc kv => processRoute acc kv.1 kv.2) ([] : Paths) routes with
  | error e =>
    rw [generate_openapi_spec, hps, except_bind_error] at h
    exact absurd h (by simp)
  | ok ps =>
    rw [generate_openapi_spec, hps, except_bind_ok] at h
    injection h with h2
    rw [← h2]

theorem processMethod_responses (path : List Char) (descr : JSON)
    (epkvs : List (List Char × JSON)) (item item₂ : PathItem) (m : JSON)
    (hP : ∀ e ∈ item, e.2.responses = responsesStub)
    (h : processMethod path descr epkvs item m = .ok item₂) :
    ∀ e ∈ item₂, e.2.responses = responsesStub := by
  cases hm : pyLower m with
  | error e2 =>
    rw [processMethod, hm, except_bind_error] at h
    exact absurd h (by simp)
  | ok mlow =>
    rw [processMethod, hm, except_bind_ok] at h
    injection h with h2
    subst h2
    intro e he
    rcases mem_dinsert _ _ _ _ he with h1 | h1
    · rw [h1]
      rfl
    · exact hP e h1

theorem processEndpoint_responses (path : List Char) (descr : JSON)
    (item item₂ : PathItem) (ep : JSON)
    (hP : ∀ e ∈ item, e.2.responses = responsesStub)
    (h : processEndpoint path descr item ep = .ok item₂) :
    ∀ e ∈ item₂, e.2.responses = responsesStub := by
  cases ep with
  | obj epkvs =>
    cases hms : pyIter ((dlookup "methods".data epkvs).getD (.arr [])) with
    | error e2 =>
      rw [processEndpoint, hms, except_bind_error] at h
      exact absurd h (by simp)
    | ok ms =>
      rw [processEndpoint, hms, except_bind_ok] at h
      exact foldlM_except_inv (processMethod path descr epkvs)
        (fun it => ∀ e ∈ it, e.2.responses = responsesStub)
        (fun s a s₂ hs hstep => processMethod_responses path descr epkvs s s₂ a hs hstep)
        ms item item₂ hP h
  | null => exact absurd h (by simp [processEndpoint])
  | bool b => exact absurd h (by simp [processEndpoint])
  | num n => exact absurd h (by simp [processEndpoint])
  | str s => exact absurd h (by simp [processEndpoint])
  | arr xs => exact absurd h (by simp [processEndpoint])

theorem buildPathItem_responses (path : List Char) (d : JSON) (item : PathItem)
    (h : buildPathItem path d = .ok item) :
    ∀ e ∈ item, e.2.responses = responsesStub := by
  cases d with
  | obj kvs =>
    rw [buildPathItem] at h
    by_cases hep : (dlookup "endpoints".data kvs).isSome
    · rw [if_pos hep] at h
      cases heps : pyIter ((dlookup "endpoints".data kvs).getD (.arr [])) with
      | error e2 =>
        rw [heps, except_bind_error] at h
        exact absurd h (by simp)
      | ok eps =>
        rw [heps, except_bind_ok] at h
        exact foldlM_except_inv
          (processEndpoint path ((dlookup "description".data kvs).getD (.str [])))
          (fun it => ∀ e ∈ it, e.2.responses = responsesStub)
          (fun s a s₂ hs hstep => processEndpoint_responses path _ s s₂ a hs hstep)
          eps [] item (by intro e he; exact absurd he (by simp)) h
    · rw [if_neg hep] at h
      injection h with h2
      subst h2
      intro e he
      exact absurd he (by simp)
  | null =>
    injection h with h2
    subst h2
    intro e he
    exact absurd he (by simp)
  | bool b =>
    injection h with h2
    subst h2
    intro e he
    exact absurd he (by simp)
  | num n =>
    injection h with h2
    subst h2
    intro e he
    exact absurd he (by simp)
  | str s =>
    injection h with h2
    subst h2
    intro e he
    exact absurd he (by simp)
  | arr xs =>
    injection h with h2
    subst h2
    intro e he
    exact absurd he (by simp)

theorem foldlM_processMethod_strs (path : List Char) (descr : JSON)
    (epkvs : List (List Char × JSON)) (ms : List (List Char)) :
    ∀ item, (ms.map JSON.str).foldlM (processMethod path descr epkvs) item
      = .ok (runMethods path descr epkvs item ms) := by
  induction ms with
  | nil => intro item; rfl
  | cons s ms ih =>
    intro item
    rw [List.map_cons, foldlM_except_cons, processMethod_str_ok, except_bind_ok, ih]
    rfl

theorem runMethods_lookup_preserved (path : List Char) (descr : JSON)
    (epkvs : List (List Char × JSON)) (k : List Char) (ms : List (List Char)) :
    ∀ item, dlookup k item = some (mkOperation path descr epkvs k) →
      dlookup k (runMethods path descr epkvs item ms)
        = some (mkOperation path descr epkvs k) := by
  induction ms with
  | nil => intro item h; exact h
  | cons s ms ih =>
    intro item h
    apply ih
    by_cases hk : k = s.map Char.toLower
    · rw [dlookup_dinsert, if_pos hk, hk]
    · rw [dlookup_dinsert, if_neg hk]
      exact h

theorem runMethods_lookup_mem (path : List Char) (descr : JSON)
    (epkvs : List (List Char × JSON)) (m : List Char) (ms : List (List Char)) :
    ∀ item, m ∈ ms →
      dlookup (m.map Char.toLower) (runMethods path descr epkvs item ms)
        = some (mkOperation path descr epkvs (m.map Char.toLower)) := by
  induction ms with
  | nil =>
    intro item h
    exact absurd h (by simp)
  | cons s ms ih =>
    intro item hm
    rcases List.mem_cons.mp hm with he | hmem
    · subst he
      exact runMethods_lookup_preserved path descr epkvs (m.map Char.toLower) ms
        (dinsert (m.map Char.toLower)
          (mkOperation path descr epkvs (m.map Char.toLower)) item)
        (dlookup_dinsert_self _ _ _)
    · exact ih (dinsert (s.map Char.toLower)
        (mkOperation path descr epkvs (s.map Char.toLower)) item) hmem

/-! ### Claim theorems -/

/-- C1: the claim says translating `/wp/v2/posts/(?P<id>[\d]+)` yields the
path `/posts/\x7bid\x7d` with one path parameter named `id`.  The code's
replacement template emits a leading slash and literal doubled braces, so
the translation actually yields `/posts//\x7b\x7bid\x7d\x7d`, from which the
parameter-extraction regex extracts a single parameter named `\x7bid`.
This theorem records the code's actual behaviour at that input. -/
theorem C1_actual_translation :
    translate "/wp/v2/posts/(?P<id>[\\d]+)".data = "/posts//\x7b\x7bid\x7d\x7d".data ∧
    findBraceParams (translate "/wp/v2/posts/(?P<id>[\\d]+)".data) = ["\x7bid".data] :=
  ⟨rfl, rfl⟩

/-- C2 as stated is false: for the route key `/x/\x7bid\x7d/\x7bid\x7d`
(whose translated path contains the path parameter `id` twice) with an
endpoint declaring an argument named `id`, the generated GET operation's
parameter list contains two entries named `id`, not exactly one. -/
theorem C2_counterexample :
    ("id".data ∈ findBraceParams (translate "/x/\x7bid\x7d/\x7bid\x7d".data))
    ∧ (((okValue (generate_openapi_spec "b".data c2Routes)).bind
          (fun d => dlookup "/x/\x7bid\x7d/\x7bid\x7d".data d.paths)).bind
        (fun it => dlookup "get".data it)).map
        (fun op => (op.parameters.filter (fun p => decide (p.name = "id".data))).length)
      = some 2 :=
  ⟨by decide, rfl⟩

/-- C2 amended: when the translated path contains a path parameter named
`id`, every generated parameter entry named `id` has in=path (a declared
argument named `id` is always dropped in favor of the path parameters),
and the number of entries named `id` equals the number of occurrences of
the `id` placeholder in the translated path — exactly one when the
placeholder occurs once. -/
theorem C2_path_param_precedence (path : List Char) (epkvs : List (List Char × JSON))
    (h : "id".data ∈ findBraceParams path) :
    ((buildParameters path epkvs).filter (fun p => decide (p.name = "id".data))).length
      = (findBraceParams path).countP (fun n => decide (n = "id".data))
    ∧ (buildParameters path epkvs).filter
        (fun p => decide (p.name = "id".data) && decide (p.inLoc ≠ "path".data)) = [] := by
  rw [buildParameters_eq]
  constructor
  · rw [List.filter_append, List.length_append]
    have h2 : (argParams (findBraceParams path)
        ((dlookup "args".data epkvs).getD (.obj []))).filter
        (fun p => decide (p.name = "id".data)) = [] := by
      rw [List.filter_eq_nil_iff]
      intro p hp
      have hn := (mem_argParams hp).2
      have hne : p.name ≠ "id".data := fun he => hn (he ▸ h)
      simp [hne]
    rw [h2, length_filter_name_map_pathParamObj]
    simp
  · rw [List.filter_append]
    have h1 : ((findBraceParams path).map pathParamObj).filter
        (fun p => decide (p.name = "id".data) && decide (p.inLoc ≠ "path".data)) = [] := by
      rw [List.filter_eq_nil_iff]
      intro p hp
      simp only [List.mem_map] at hp
      obtain ⟨n, hn, hpe⟩ := hp
      subst hpe
      simp [pathParamObj]
    have h2 : (argParams (findBraceParams path)
        ((dlookup "args".data epkvs).getD (.obj []))).filter
        (fun p => decide (p.name = "id".data) && decide (p.inLoc ≠ "path".data)) = [] := by
      rw [List.filter_eq_nil_iff]
      intro p hp
      have hn := (mem_argParams hp).2
      have hne : p.name ≠ "id".data := fun he => hn (he ▸ h)
      simp [hne]
    rw [h1, h2]
    rfl

/-- C2 witness: a concrete path containing the `id` placeholder once and an
endpoint declaring an argument `id`; the amended theorem applies and its
hypothesis holds there. -/
theorem C2_witness :
    ("id".data ∈ findBraceParams "/posts/\x7bid\x7d".data)
    ∧ (((buildParameters "/posts/\x7bid\x7d".data
          [("args".data, JSON.obj [("id".data, JSON.obj [])])]).filter
          (fun p => decide (p.name = "id".data))).length
        = (findBraceParams "/posts/\x7bid\x7d".data).countP
            (fun n => decide (n = "id".data))
      ∧ (buildParameters "/posts/\x7bid\x7d".data
          [("args".data, JSON.obj [("id".data, JSON.obj [])])]).filter
          (fun p => decide (p.name = "id".data) && decide (p.inLoc ≠ "path".data)) = []) :=
  ⟨by decide,
   C2_path_param_precedence "/posts/\x7bid\x7d".data
     [("args".data, JSON.obj [("id".data, JSON.obj [])])] (by decide)⟩

/-- C3 as stated is false: in the route key `/y/\x7bpid\x7d/\x7bpid\x7d` the
placeholder name `pid` appears twice, and the generated POST operation gets
two path parameters named `pid` — path parameter names are not deduplicated,
so parameter names within the operation are not unique. -/
theorem C3_counterexample :
    (((okValue (generate_openapi_spec "b".data c3Routes)).bind
        (fun d => dlookup "/y/\x7bpid\x7d/\x7bpid\x7d".data d.paths)).bind
      (fun it => dlookup "post".data it)).map
      (fun op => op.parameters.map (fun p => p.name))
      = some ["pid".data, "pid".data] := rfl

/-- C3 amended: within every generated operation, the path-parameter
entries are exactly the placeholder occurrences of the translated path, in
order and with duplicates preserved (no deduplication), and declared
arguments whose names collide with a path parameter are dropped, so no
query entry shares a name with a path parameter. -/
theorem C3_parameter_structure (path : List Char) (epkvs : List (List Char × JSON)) :
    (buildParameters path epkvs).map (fun p => (p.name, p.inLoc))
      = (findBraceParams path).map (fun n => (n, "path".data))
        ++ ((argNames epkvs).filter
            (fun n => decide (n ∉ findBraceParams path))).map (fun n => (n, "query".data))
    ∧ ((buildParameters path epkvs).filter
        (fun p => decide (p.inLoc = "path".data))).map (fun p => p.name)
      = findBraceParams path
    ∧ (buildParameters path epkvs).filter
        (fun p => decide (p.inLoc = "query".data)
          && decide (p.name ∈ findBraceParams path)) = [] := by
  rw [buildParameters_eq]
  refine ⟨?_, ?_, ?_⟩
  · rw [List.map_append]
    have hpath : ((findBraceParams path).map pathParamObj).map
        (fun p => (p.name, p.inLoc))
        = (findBraceParams path).map (fun n => (n, "path".data)) := by
      rw [List.map_map]
      rfl
    rw [hpath]
    congr 1
    simp only [argNames]
    cases h : (dlookup "args".data epkvs).getD (.obj []) with
    | obj akvs => exact argParams_pairs (findBraceParams path) akvs
    | null => rfl
    | bool b => rfl
    | num n => rfl
    | str s => rfl
    | arr xs => rfl
  · rw [List.filter_append, List.map_append]
    have h2 : (argParams (findBraceParams path)
        ((dlookup "args".data epkvs).getD (.obj []))).filter
        (fun p => decide (p.inLoc = "path".data)) = [] := by
      rw [List.filter_eq_nil_iff]
      intro p hp
      have hq := (mem_argParams hp).1
      simp only [hq]
      decide
    rw [h2, filter_path_map_pathParamObj]
    simp
  · rw [List.filter_append]
    have h1 : ((findBraceParams path).map pathParamObj).filter
        (fun p => decide (p.inLoc = "query".data)
          && decide (p.name ∈ findBraceParams path)) = [] := by
      rw [List.filter_eq_nil_iff]
      intro p hp
      simp only [List.mem_map] at hp
      obtain ⟨n, hn, hpe⟩ := hp
      subst hpe
      have hpq : ¬ (("path".data : List Char) = "query".data) := by decide
      simp [pathParamObj, hpq]
    have h2 : (argParams (findBraceParams path)
        ((dlookup "args".data epkvs).getD (.obj []))).filter
        (fun p => decide (p.inLoc = "query".data)
          && decide (p.name ∈ findBraceParams path)) = [] := by
      rw [List.filter_eq_nil_iff]
      intro p hp
      have hn := (mem_argParams hp).2
      simp [hn]
    rw [h1, h2]
    rfl

/-- C4 as stated is false: a route whose metadata is a dict with an
`endpoints` key holding the number 5 makes `generate_openapi_spec` raise a
TypeError when the code iterates that value, instead of degrading to
omission. -/
theorem C4_counterexample :
    generate_openapi_spec "b".data
      [("/x".data, JSON.obj [("endpoints".data, JSON.num 5)])]
      = .error .typeError := rfl

/-- C4 amended: `generate_openapi_spec` raises no exception provided every
route metadata that is a dict with an `endpoints` key has that key mapping
to a list of dicts whose `methods`, when present, is a list of strings.
Non-dict metadata, missing keys and arbitrary `args` or argument-spec
values are tolerated; malformed `endpoints`, endpoint entries or `methods`
shapes raise a TypeError or AttributeError. -/
theorem C4_no_crash_when_well_shaped (base : List Char)
    (routes : List (List Char × JSON))
    (h : routes.all (fun kv => wellShapedDetails kv.2) = true) :
    isOkE (generate_openapi_spec base routes) = true := by
  have hall : ∀ kv ∈ routes, wellShapedDetails kv.2 = true := by
    rw [List.all_eq_true] at h
    exact h
  obtain ⟨ps, hps⟩ := foldlM_except_ok (fun acc kv => processRoute acc kv.1 kv.2)
    (fun kv => wellShapedDetails kv.2 = true)
    (fun acc kv h2 => processRoute_ok acc kv.1 kv.2 h2) routes [] hall
  simp only [generate_openapi_spec, hps, except_bind_ok]
  rfl

/-- C4 witness: the concrete route set `c4Routes` mixes a normal route with
tolerated malformations (non-dict metadata, missing endpoints, non-dict
`args`); it is well-shaped in the sense of the amended claim and generation
succeeds on it. -/
theorem C4_witness :
    (c4Routes.all (fun kv => wellShapedDetails kv.2) = true)
    ∧ isOkE (generate_openapi_spec "u".data c4Routes) = true :=
  ⟨rfl, C4_no_crash_when_well_shaped "u".data c4Routes rfl⟩

/-- C6: (i) metadata that is not a dict with an `endpoints` key produces
the empty path item; (ii) a route whose path item is empty leaves the
accumulated paths mapping unchanged, so it contributes no key; (iii) every
path item stored in a generated document is non-empty, i.e. carries at
least one method. -/
theorem C6_empty_route_omission :
    (∀ (p : List Char) (d : JSON), hasEndpointsKey d = false →
      buildPathItem p d = .ok [])
    ∧ (∀ (paths : Paths) (route : List Char) (d : JSON),
        buildPathItem (translate route) d = .ok [] →
        processRoute paths route d = .ok paths)
    ∧ (∀ (base : List Char) (routes : List (List Char × JSON)) (doc : OpenAPISpec)
        (p : List Char) (item : PathItem),
        generate_openapi_spec base routes = .ok doc →
        dlookup p doc.paths = some item → item.isEmpty = false) := by
  refine ⟨?_, ?_, ?_⟩
  · intro p d h
    cases d with
    | obj kvs =>
      simp only [hasEndpointsKey] at h
      simp only [buildPathItem, h]
      rfl
    | null => rfl
    | bool b => rfl
    | num n => rfl
    | str s => rfl
    | arr xs => rfl
  · intro paths route d h
    simp only [processRoute, h, except_bind_ok]
    rfl
  · intro base routes doc p item hdoc hp
    have hfold := generate_paths_eq base routes doc hdoc
    have hinv := foldlM_except_inv (fun acc kv => processRoute acc kv.1 kv.2)
      (fun ps => ∀ q it, dlookup q ps = some it → it.isEmpty = false)
      (by
        intro s a s₂ hP hstep q it hq
        rcases processRoute_cases s s₂ a.1 a.2 hstep with heq | ⟨item₀, _, hne, heq⟩
        · exact hP q it (heq ▸ hq)
        · subst heq
          rw [dlookup_dinsert] at hq
          by_cases hqk : q = translate a.1
          · rw [if_pos hqk] at hq
            injection hq with hq2
            rw [← hq2]
            exact hne
          · rw [if_neg hqk] at hq
            exact hP q it hq)
      routes [] doc.paths (by intro q it hq; exact absurd hq (by simp [dlookup]))
      hfold
    exact hinv p item hp

/-- C6 witness: non-dict metadata yields the empty item, an empty item
leaves `paths` untouched, and the item stored for the concrete route
`c6Route` is non-empty. -/
theorem C6_witness :
    buildPathItem "/w".data (JSON.num 7) = .ok []
    ∧ processRoute [] "/w".data (JSON.num 7) = .ok []
    ∧ c6Item.isEmpty = false :=
  ⟨C6_empty_route_omission.1 "/w".data (JSON.num 7) rfl,
   C6_empty_route_omission.2.1 [] "/w".data (JSON.num 7) rfl,
   C6_empty_route_omission.2.2 "u".data [c6Route] c6Doc "/a".data c6Item rfl rfl⟩

/-- C7: every operation reachable in a generated document carries exactly
the response keys 200, 400, 401 and 404, regardless of method and route
metadata. -/
theorem C7_responses_fixed (base : List Char) (routes : List (List Char × JSON))
    (doc : OpenAPISpec) (p : List Char) (item : PathItem) (m : List Char)
    (op : Operation)
    (hdoc : generate_openapi_spec base routes = .ok doc)
    (hp : dlookup p doc.paths = some item)
    (hm : dlookup m item = some op) :
    op.responses.map Prod.fst = ["200".data, "400".data, "401".data, "404".data] := by
  have hfold := generate_paths_eq base routes doc hdoc
  have hinv := foldlM_except_inv (fun acc kv => processRoute acc kv.1 kv.2)
    (fun ps => ∀ e ∈ ps, ∀ e2 ∈ e.2, e2.2.responses = responsesStub)
    (by
      intro s a s₂ hP hstep e he
      rcases processRoute_cases s s₂ a.1 a.2 hstep with heq | ⟨item₀, hbi, _, heq⟩
      · exact hP e (heq ▸ he)
      · subst heq
        rcases mem_dinsert _ _ _ _ he with h1 | h1
        · rw [h1]
          exact fun e2 he2 => buildPathItem_responses (translate a.1) a.2 item₀ hbi e2 he2
        · exact hP e h1)
    routes [] doc.paths (by intro e he; exact absurd he (by simp)) hfold
  have hop := hinv (p, item) (dlookup_mem p item doc.paths hp) (m, op)
    (dlookup_mem m op item hm)
  rw [hop]
  rfl

/-- C7 witness: the POST operation generated for the concrete route
`c7Route` has exactly the four fixed response keys. -/
theorem C7_witness :
    c7Op.responses.map Prod.fst
      = ["200".data, "400".data, "401".data, "404".data] :=
  C7_responses_fixed "u".data [c7Route] c7Doc "/r".data c7Item "post".data c7Op
    rfl rfl rfl

/-- C8: processing an endpoint whose `methods` list contains `m` maps the
lowercased method, in the resulting path item, to exactly the operation
built from this endpoint — whatever operation the starting item already
held at that key (for instance one built from an earlier endpoint of the
same route) is replaced, with no merging of parameters or other fields. -/
theorem C8_last_write_wins (path : List Char) (descr : JSON)
    (epkvs : List (List Char × JSON)) (ms : List (List Char)) (m : List Char)
    (item : PathItem)
    (hms : dlookup "methods".data epkvs = some (JSON.arr (ms.map JSON.str)))
    (hm : m ∈ ms) :
    processEndpoint path descr item (JSON.obj epkvs)
      = .ok (runMethods path descr epkvs item ms)
    ∧ dlookup (m.map Char.toLower) (runMethods path descr epkvs item ms)
      = some (mkOperation path descr epkvs (m.map Char.toLower)) := by
  constructor
  · rw [processEndpoint, hms]
    exact foldlM_processMethod_strs path descr epkvs ms item
  · exact runMethods_lookup_mem path descr epkvs m ms item hm

/-- C8 witness: an endpoint declaring GET, processed against a path item
that already holds a GET operation built from an earlier endpoint; the
resulting item maps `get` to the later endpoint's operation. -/
theorem C8_witness :
    processEndpoint "/e".data (JSON.str "d".data) c8PrevItem (JSON.obj c8Epkvs)
      = .ok (runMethods "/e".data (JSON.str "d".data) c8Epkvs c8PrevItem ["GET".data])
    ∧ dlookup "get".data
        (runMethods "/e".data (JSON.str "d".data) c8Epkvs c8PrevItem ["GET".data])
      = some (mkOperation "/e".data (JSON.str "d".data) c8Epkvs "get".data) :=
  C8_last_write_wins "/e".data (JSON.str "d".data) c8Epkvs ["GET".data] "GET".data
    c8PrevItem rfl (by decide)

/-- C9: processing a route whose metadata yields the non-empty path item
`item` stores `item` under the route's translated path in the accumulated
paths mapping, overwriting whatever path item an earlier route with the
same normalized path had stored there; the stored item is built from this
route's metadata alone, with no merging. -/
theorem C9_later_route_overwrites (paths : Paths) (route : List Char) (d : JSON)
    (item : PathItem) (h : buildPathItem (translate route) d = .ok item)
    (hne : item.isEmpty = false) :
    processRoute paths route d = .ok (dinsert (translate route) item paths)
    ∧ dlookup (translate route) (dinsert (translate route) item paths) = some item := by
  constructor
  · rw [processRoute, h, except_bind_ok, hne]
    rfl
  · exact dlookup_dinsert_self _ _ _

/-- C9 witness: the routes `/wp/v2/s` and `/s` both normalize to `/s`;
after the earlier route produced the accumulator `c9Paths`, processing the
later route overwrites the entry at `/s` with the later route's own path
item. -/
theorem C9_witness :
    processRoute [] "/wp/v2/s".data c9D1 = .ok c9Paths
    ∧ (processRoute c9Paths "/s".data c9D2
        = .ok (dinsert (translate "/s".data) c9Item2 c9Paths)
      ∧ dlookup (translate "/s".data) (dinsert (translate "/s".data) c9Item2 c9Paths)
        = some c9Item2) :=
  ⟨rfl, C9_later_route_overwrites c9Paths "/s".data c9D2 c9Item2 rfl rfl⟩

/-- C5: for every input route pattern string (including the empty string),
the translated path starts with the character `/`. -/
theorem C5_leading_slash (route : List Char) : (translate route).head? = some '/' := by
  by_cases h : (sub2 (sub1 (stripNamespace route))).head? = some '/' <;>
    simp [translate, h]

end WPGen
